import Mathlib

/-!
# Verification of the l2met core against its specification

Shallow embedding of the three source files of the repository:

* `src/metchan/metchan.go` — the self-metrics channel (`Channel.add`,
  `Channel.flush`, `Channel.post`, the outlet goroutine);
* `src/unnamed/part_000` — the `utils` package with `ParseAuth`;
* `src/lib/l2met/outlet.rb` — the distributed outlet's `snapshot` and
  `aggregate`.

Conventions used throughout:

* Go `float64` / Ruby `Float` values are modelled as exact rationals `ℚ`;
* timestamps (`time.Time` truncated to the flush interval, Ruby integer
  bucket times) are modelled as `ℤ`, with the Go zero `time.Time` modelled
  as `0`;
* Go maps are modelled as association lists (iteration order fixed by the
  list; no claim below depends on map order);
* network and store effects (HTTP responses, the fernet library, the
  consumer directory, Librato submission) are passed in explicitly as
  arguments, so every function is a pure function of its inputs.

String splitting is re-implemented on `List Char` so that all definitions
reduce inside the kernel.
-/

set_option autoImplicit false

namespace L2met

/-! ### Character-level string helpers -/

/-- Split a character list at every occurrence of `c`, keeping empty
fields.  This is Go's `strings.Split` (and agrees with Ruby's
`String#split` on the first field, which is all `outlet.rb` reads). -/
def splitChar (c : Char) : List Char → List (List Char)
  | [] => [[]]
  | a :: rest =>
    match splitChar c rest with
    | [] => [[]]
    | g :: gs => if a = c then [] :: g :: gs else (a :: g) :: gs

/-- `strings.Split s (String.singleton c)` on `String`s. -/
def splitAll (c : Char) (s : String) : List String :=
  (splitChar c s.data).map String.mk

/-- Break a character list at the first space, if any. -/
def breakAtSpace : List Char → Option (List Char × List Char)
  | [] => none
  | c :: rest =>
    if c = ' ' then some ([], rest)
    else
      match breakAtSpace rest with
      | none => none
      | some (a, b) => some (c :: a, b)

/-- Go's `strings.SplitN (h, " ", 2)`. -/
def splitSpaceN2 (s : String) : List String :=
  match breakAtSpace s.data with
  | none => [s]
  | some (a, b) => [String.mk a, String.mk b]

/-- Parse a nonempty all-decimal-digit string (`none` otherwise).  Ruby's
`Integer()` raises on anything else; the key layout in the spec embeds a
nonnegative decimal id, on which the two agree. -/
def digitsToNat : List Char → Option ℕ
  | [] => none
  | l =>
    l.foldl
      (fun acc c =>
        match acc with
        | none => none
        | some n => if '0' ≤ c ∧ c ≤ '9' then some (n * 10 + (c.toNat - 48)) else none)
      (some 0)

/-! ### The self-metrics channel (`src/metchan/metchan.go`)

The `bucket` package that `metchan.go` imports is not part of the three
source files; its data is reconstructed from the spec (§3 "Bucket",
§4.1). -/

namespace Metchan

/-- `bucket.Id` as used by metchan: the resolution field is the channel's
fixed flush interval and plays no role in the buffer logic, so it is
omitted; `time` is the start of the window, with Go's zero `time.Time`
modelled as `0`. -/
structure BId where
  name : String
  source : String
  time : ℤ
deriving DecidableEq

/-- Modelled from the spec: the `bucket` package backing `bucket.Bucket`
is not under `src/`.  Per §3 a Bucket owns a `MetricIdentity` and an
ordered growable sequence of numeric values `Vals` (the 10,000-element
capacity is a memory optimisation with no logical content and is not
modelled). -/
structure Bucket where
  id : BId
  vals : List ℚ
deriving DecidableEq

/-- Modelled from the spec: `Count() = len(Vals)` (§3). -/
def Bucket.count (b : Bucket) : ℕ := b.vals.length

/-- Modelled from the spec: `Sum` is the arithmetic total of `Vals` (§3,
§8); zero on an empty sequence, which callers never flush. -/
def Bucket.sumv (b : Bucket) : ℚ := b.vals.sum

/-- Modelled from the spec: `Max` is the extremum of `Vals` (§3, §8);
zero-valued on an empty sequence. -/
def Bucket.maxv (b : Bucket) : ℚ :=
  match b.vals with
  | [] => 0
  | v :: l => l.foldl max v

/-- Modelled from the spec: `Min`, dually. -/
def Bucket.minv (b : Bucket) : ℚ :=
  match b.vals with
  | [] => 0
  | v :: l => l.foldl min v

/-- Lookup in the channel's `Buffer` map, modelled as an association
list. -/
def lookupB : List (String × Bucket) → String → Option Bucket
  | [], _ => none
  | (k, b) :: rest, key => if k = key then some b else lookupB rest key

/-- Map update: replace the binding for `key`, or append a fresh one. -/
def insertB : List (String × Bucket) → String → Bucket → List (String × Bucket)
  | [], key, b => [(key, b)]
  | (k, b0) :: rest, key, b =>
    if k = key then (k, b) :: rest else (k, b0) :: insertB rest key b

/-- The buffer key used by `Channel.add`: `id.Name + ":" + id.Source`. -/
def bufKey (id : BId) : String := id.name ++ ":" ++ id.source

/-- Shallow embedding of `Channel.add` (metchan.go lines 147–167).  The
caller's `time.Now().Truncate(c.FlushInterval)` is passed in as `latest`.
Mirrors the source exactly: a missing bucket is created with the given id
and `Vals = make([]float64, 1, 10000)`, i.e. one zero element; if the
stored window time differs from `latest` the time is updated and `Vals`
is truncated to empty (`b.Vals = b.Vals[:0]`); finally the value is
appended. -/
def add (buf : List (String × Bucket)) (id : BId) (latest : ℤ) (v : ℚ) :
    List (String × Bucket) :=
  let key := bufKey id
  let b0 := (lookupB buf key).getD { id := id, vals := [0] }
  let b1 :=
    if b0.id.time ≠ latest then
      { id := { b0.id with time := latest }, vals := ([] : List ℚ) }
    else b0
  insertB buf key { b1 with vals := b1.vals ++ [v] }

/-- A sequence of `add` calls for the same id, all seeing the same
truncated current time `latest` (i.e. within one window). -/
def addMany (buf : List (String × Bucket)) (id : BId) (latest : ℤ)
    (vs : List ℚ) : List (String × Bucket) :=
  vs.foldl (fun bf v => add bf id latest v) buf

/-- Does the next `add` for `key` take the rollover branch?  `idTime` is
the `Time` field of the id the caller passes (relevant only when the key
is absent and a fresh bucket is created from that id). -/
def needsRoll (buf : List (String × Bucket)) (key : String)
    (idTime latest : ℤ) : Bool :=
  match lookupB buf key with
  | some b => b.id.time != latest
  | none => idTime != latest

/-- `libratoMetric`: the serialised form of one bucket. -/
structure LMetric where
  name : String
  time : ℤ
  source : String
  count : ℕ
  sum : ℚ
  max : ℚ
  min : ℚ
deriving DecidableEq

/-- The conversion `flush` applies to each live bucket. -/
def toLMetric (b : Bucket) : LMetric :=
  { name := b.id.name
    time := b.id.time
    source := b.id.source
    count := b.count
    sum := b.sumv
    max := b.maxv
    min := b.minv }

/-- Shallow embedding of `Channel.flush` (metchan.go lines 175–189): under
the lock, every live bucket is converted and pushed on the outbox.  The
pair returned is (metrics emitted to the outbox, buffer after the call);
the source loop only reads the map, and the returned buffer is the map as
the function leaves it. -/
def flush (buf : List (String × Bucket)) :
    List LMetric × List (String × Bucket) :=
  (buf.map (fun p => toLMetric p.2), buf)

/-- `libratoGauge`, the JSON payload shape `{"gauges": [...]}`. -/
structure LibratoGauge where
  gauges : List LMetric
deriving DecidableEq

/-- An HTTP response as seen by `post`: status code and body, with
`body = none` modelling an `ioutil.ReadAll` failure. -/
structure HttpResp where
  status : ℕ
  body : Option String
deriving DecidableEq

/-- The error `post` reports for a non-2xx response.  The source formats
it as a string carrying the status code and, when readable, the response
body; the structured form here carries exactly those fields. -/
inductive PostErr
  | httpErr (code : ℕ) (respBody : Option String)
deriving DecidableEq

/-- Shallow embedding of `Channel.post` (metchan.go lines 191–231).  The
network is modelled by passing the HTTP response in; the JSON
serialisation steps cannot fail on this payload.  Returns the
single-element batch `post` marshals together with the error value the
source returns: `none` exactly on a 2xx status, otherwise an error
carrying the status and the body when it could be read. -/
def post (m : LMetric) (resp : HttpResp) : LibratoGauge × Option PostErr :=
  (⟨[m]⟩,
   if resp.status / 100 = 2 then none
   else some (.httpErr resp.status resp.body))

/-- Shallow embedding of the `Channel.outlet` goroutine's loop body over a
drained outbox: each item is posted; a non-nil error is logged
(`at=metchan-post`) and the loop continues with the next item — the item
is never requeued. -/
def outletRun : List (LMetric × HttpResp) → List (LMetric × Option PostErr)
  | [] => []
  | (m, r) :: rest => (m, (post m r).2) :: outletRun rest

end Metchan

/-! ### The auth resolver (`src/unnamed/part_000`, package `utils`) -/

namespace Utils

/-- Value of one character of the standard base64 alphabet. -/
def b64Val (c : Char) : Option ℕ :=
  if 'A' ≤ c ∧ c ≤ 'Z' then some (c.toNat - 65)
  else if 'a' ≤ c ∧ c ≤ 'z' then some (c.toNat - 97 + 26)
  else if '0' ≤ c ∧ c ≤ '9' then some (c.toNat - 48 + 52)
  else if c = '+' then some 62
  else if c = '/' then some 63
  else none

/-- Modelled from Go's `encoding/base64` `StdEncoding.DecodeString` (an
external standard-library collaborator of `ParseAuth`): decodes 4-character
quanta, requires `=`-padding in the final quantum, and returns the bytes
decoded before any error together with an error flag — `DecodeString`
returns the successfully decoded prefix alongside a non-nil error.
Newline skipping is omitted (no input considered here contains one). -/
def base64DecodeGo : List Char → List ℕ × Bool
  | [] => ([], false)
  | c0 :: c1 :: c2 :: c3 :: rest =>
    (match b64Val c0, b64Val c1 with
     | some v0, some v1 =>
       if c2 = '=' then
         -- "xx==": one byte, must end the input
         if c3 = '=' ∧ rest = [] then ([v0 * 4 + v1 / 16], false)
         else ([], true)
       else
         (match b64Val c2 with
          | some v2 =>
            if c3 = '=' then
              -- "xxx=": two bytes, must end the input
              if rest = [] then
                ([v0 * 4 + v1 / 16, (v1 % 16) * 16 + v2 / 4], false)
              else ([], true)
            else
              (match b64Val c3 with
               | some v3 =>
                 let (bs, e) := base64DecodeGo rest
                 ((v0 * 4 + v1 / 16) :: ((v1 % 16) * 16 + v2 / 4) ::
                    ((v2 % 4) * 64 + v3) :: bs, e)
               | none => ([], true))
          | none => ([], true))
     | _, _ => ([], true))
  | _ => ([], true)

/-- Bytes back to a string; the inputs of interest decode to ASCII, and
splitting on `':'` and comparing against ASCII literals agree with Go's
byte-string semantics under this conversion. -/
def bytesToChars (bs : List ℕ) : List Char := bs.map Char.ofNat

/-- The errors `ParseAuth` can return (`errors.New` messages in the
source), plus the base64 `CorruptInputError` that the inline-credentials
step can store in the named return `err`. -/
inductive AuthErr
  | missingHeader
  | malformedHeader
  | malformedEncoding
  | b64CorruptInput
deriving DecidableEq

/-- Outcome of `ParseAuth`.  Go returns the triple `(user, pass, err)`;
`panic` models a runtime index-out-of-range panic. -/
inductive AuthResult
  | panic
  | ret (user pass : String) (err : Option AuthErr)
deriving DecidableEq

/-- The tail of `ParseAuth` after the sentinel check: the fernet branch
and the inline-credentials fallback.  `verify` stands for the external
`fernet.VerifyAndDecrypt` with the server's key set (`none` = `nil`);
`userPass` is the decoded credential payload and `parts` its split on
`':'`.  In the fernet branch the source reads `parts[1]` of the decrypted
plaintext unconditionally, which panics when it contains no `':'`.  In
the fallback, `parts[0]` is base64-decoded with the error stored in the
named return `err`, the decoded prefix split on `':'`, its first field
returned as user and its second, when present, as pass. -/
def parseAuthTail (verify : String → Option String) (userPass : String)
    (parts : List String) : AuthResult :=
  match verify userPass with
  | some s =>
    let parts2 := splitAll ':' s
    (match parts2.get? 1 with
     | none => .panic
     | some p1 => .ret (parts2.headD "") p1 none)
  | none =>
    if (parts.headD "").length > 0 then
      let dec := base64DecodeGo (parts.headD "").data
      let outletCreds := splitAll ':' (String.mk (bytesToChars dec.1))
      .ret (outletCreds.headD "")
        (match outletCreds.get? 1 with
         | some p => p
         | none => "")
        (if dec.2 then some .b64CorruptInput else none)
    else .ret "" "" none

/-- Shallow embedding of `ParseAuth` (src/unnamed/part_000 lines 18–76).
The request is represented by its `Authorization` header (`none` = header
absent); `verify` is the external fernet verify-and-decrypt.  Steps, as
in the source: missing header and malformed header/encoding are hard
failures; then the sentinel check `parts[0] == "l2met" &&
len(parts[1]) > 0` — Go's `&&` short-circuits, so `parts[1]` is read
exactly when `parts[0] == "l2met"`, and panics when the payload contains
no `':'`; then `parseAuthTail`. -/
def ParseAuth (verify : String → Option String) (header : Option String) :
    AuthResult :=
  match header with
  | none => .ret "" "" (some .missingHeader)
  | some h =>
    let auth := splitSpaceN2 h
    if auth.length ≠ 2 then .ret "" "" (some .malformedHeader)
    else
      match base64DecodeGo (auth.getD 1 "").data with
      | (_, true) => .ret "" "" (some .malformedEncoding)
      | (bs, false) =>
        let userPass := String.mk (bytesToChars bs)
        let parts := splitAll ':' userPass
        if parts.headD "" = "l2met" then
          match parts.get? 1 with
          | none => .panic
          | some p1 =>
            if p1.length > 0 then .ret "l2met" p1 none
            else parseAuthTail verify userPass parts
        else parseAuthTail verify userPass parts

/-- `fernet.VerifyAndDecrypt` with any key set returns `nil` on every
payload shorter than a minimal token (the payloads in the concrete cases
below are far below it): modelled by the constantly-`nil` verifier. -/
def verifyNone : String → Option String := fun _ => none

end Utils

/-! ### The distributed outlet (`src/lib/l2met/outlet.rb`) -/

namespace Outlet

/-- One raw sample as fetched from the sample store:
`redis.hgetall(key).merge('mkey' => mkey)`.  The hash fields read by
`snapshot`/`aggregate` are `consumer`, `name`, `source`, `label`, `type`
and `value`; `value` is parsed with Ruby's `Float()`, modelled by
carrying the parsed number directly. -/
structure Sample where
  mkey : String
  consumer : String
  name : String
  source : String
  label : String
  type : String
  value : ℚ
deriving DecidableEq

/-- One step of Ruby's `Enumerable#group_by`: file `a` into the group
keyed `k`, preserving first-occurrence order of groups and, within a
group, the original element order. -/
def addToGroup (k : String) (a : Sample) :
    List (String × List Sample) → List (String × List Sample)
  | [] => [(k, [a])]
  | (k0, as) :: rest =>
    if k0 = k then (k0, as ++ [a]) :: rest
    else (k0, as) :: addToGroup k a rest

/-- `group_by` as a left fold over the input. -/
def groupByAux (f : Sample → String) (acc : List (String × List Sample)) :
    List Sample → List (String × List Sample)
  | [] => acc
  | a :: l => groupByAux f (addToGroup (f a) a acc) l

/-- Ruby's `Enumerable#group_by` on a list of samples. -/
def groupBy (f : Sample → String) (l : List Sample) :
    List (String × List Sample) :=
  groupByAux f [] l

/-- One Librato queue entry produced by `aggregate`: the hash
`{name => opts.merge(value: val)}` with
`opts = {source:, type: "gauge", attributes: {display_units_long: label},
measure_time: bucket}` (the constant `type: "gauge"` is not repeated in
the structure). -/
structure MOut where
  name : String
  source : String
  label : String
  measureTime : ℤ
  value : ℚ
deriving DecidableEq

/-- The body of `aggregate`'s per-`mkey` map (outlet.rb lines 59–85).
Ruby picks the representative `s` with `Array#sample` (a random element);
it is modelled as the head, and every claim below constrains a group to
be homogeneous in the fields read from the representative, under which
the choice is irrelevant.  `counter` sums all values (`reduce(:+)` on a
nonempty group), `last` takes the last sample's value, `list` defers to
the statistics routine `stats`, and any other kind yields `nil`, which
the final `compact` drops — modelled by the empty contribution.  A group
produced by `group_by` is never empty; the `[]` case is unreachable. -/
def aggregateGroup (stats : List Sample → List (String × ℚ)) (bucket : ℤ) :
    List Sample → List MOut
  | [] => []
  | s :: rest =>
    let ms := s :: rest
    let out := fun (n : String) (v : ℚ) =>
      MOut.mk n s.source s.label bucket v
    match s.type with
    | "counter" => [out (s.name ++ ".count") ((ms.map Sample.value).sum)]
    | "last" => [out (s.name ++ ".last") ((rest.getLastD s).value)]
    | "list" => (stats ms).map (fun p => out (s.name ++ "." ++ p.1) p.2)
    | _ => []

/-- Shallow embedding of `Outlet.aggregate` (outlet.rb lines 58–85):
group the tenant's samples by `mkey`, apply the per-group body, then
`flatten.compact`. -/
def aggregate (stats : List Sample → List (String × ℚ)) (bucket : ℤ)
    (metrics : List Sample) : List MOut :=
  ((groupBy Sample.mkey metrics).map
    (fun g => aggregateGroup stats bucket g.2)).flatten

/-- Modelled from the spec: `L2met::Stats.aggregate`
(`require 'l2met/stats'`) is not under `src/`.  §4.3 specifies a generic
statistics routine over all values in the group producing one value per
summary statistic, "minimum: mean, and percentile or count/sum/min/max
depending on configured statistics"; modelled as mean, count, sum, min
and max. -/
def statsAggregate (ms : List Sample) : List (String × ℚ) :=
  let vs := ms.map Sample.value
  [("mean", vs.sum / (vs.length : ℚ)),
   ("count", (vs.length : ℚ)),
   ("sum", vs.sum),
   ("min", match vs with | [] => 0 | v :: l => l.foldl min v),
   ("max", match vs with | [] => 0 | v :: l => l.foldl max v)]

/-- `Integer(key.split(':')[0])`: the numeric id embedded before the
first `':'` of a store key (`none` models the `Integer()` exception on a
key without one). -/
def keyNumId (key : String) : Option ℕ :=
  digitsToNat ((splitAll ':' key).headD "").data

/-- Shallow embedding of the partition-select step of `Outlet.snapshot`
(outlet.rb lines 27–34): from the keys the store scan returned, keep
those whose numeric prefix modulo `mx` (the configured partition count)
equals `pt` (the partition argument).  `none` models the `Integer()`
exception aborting the call when some scanned key lacks a numeric
prefix. -/
def snapshotSelect (keys : List String) (pt mx : ℕ) : Option (List String) :=
  if keys.all (fun k => (keyNumId k).isSome) then
    some (keys.filter (fun k => (keyNumId k).getD 0 % mx == pt))
  else none

/-- A consumer-directory record, as `librato_client` reads it
(`consumer["email"]`, `consumer["token"]`). -/
structure Client where
  email : String
  token : String
deriving DecidableEq

/-- Observable log of one snapshot's tenant loop: successful `q.submit`
calls, the running total of `Utils.count(q.length,
'outlet.librato.metrics')`, the `Utils.count(1,
'outlet.metric-post-error')` self-metric, and the consumer ids logged
with `at: 'error'`. -/
structure SnapLog where
  submitted : ℕ
  metricsCounted : ℕ
  postErrors : ℕ
  errLogs : List String
deriving DecidableEq

/-- Outcome of the `begin … rescue` body for one tenant group
(outlet.rb lines 40–55).  `lk` models the consumer-directory lookup
inside `librato_client` and `sb` the Librato submission, the two
external calls that can raise; `.ok true` = the queue was non-empty and
submitted, `.ok false` = empty queue, nothing submitted, `.error` = an
exception reached the `rescue`. -/
def groupOutcome (lk : String → Except String Client)
    (sb : Client → List MOut → Except String Unit)
    (stats : List Sample → List (String × ℚ)) (bucket : ℤ)
    (g : String × List Sample) : Except String Bool :=
  match lk g.1 with
  | .error e => .error e
  | .ok c =>
    let outs := aggregate stats bucket g.2
    if outs.length > 0 then
      match sb c outs with
      | .error e => .error e
      | .ok _ => .ok true
    else .ok false

/-- Effect of one tenant group on the snapshot log: on success the
submission and item counters advance; on a rescued error the error
self-metric is counted and the consumer id logged, and the loop moves to
the `next` group. -/
def snapStep (lk : String → Except String Client)
    (sb : Client → List MOut → Except String Unit)
    (stats : List Sample → List (String × ℚ)) (bucket : ℤ)
    (acc : SnapLog) (g : String × List Sample) : SnapLog :=
  match groupOutcome lk sb stats bucket g with
  | .ok true =>
    { acc with
        submitted := acc.submitted + 1
        metricsCounted :=
          acc.metricsCounted + (aggregate stats bucket g.2).length }
  | .ok false => acc
  | .error _ =>
    { acc with
        postErrors := acc.postErrors + 1
        errLogs := acc.errLogs ++ [g.1] }

/-- Shallow embedding of the per-tenant loop of `Outlet.snapshot`
(outlet.rb lines 39–55) over the grouped-by-consumer samples. -/
def snapshotGroups (lk : String → Except String Client)
    (sb : Client → List MOut → Except String Unit)
    (stats : List Sample → List (String × ℚ)) (bucket : ℤ)
    (groups : List (String × List Sample)) : SnapLog :=
  groups.foldl (snapStep lk sb stats bucket) ⟨0, 0, 0, []⟩

/-- Decidable test that a tenant group's body completed with a
submission. -/
def okTrueB : Except String Bool → Bool
  | .ok true => true
  | _ => false

end Outlet

/-! ### Lemmas about the self-metrics buffer -/

namespace Metchan

theorem lookupB_insertB_self (buf : List (String × Bucket)) (key : String)
    (b : Bucket) : lookupB (insertB buf key b) key = some b := by
  induction buf with
  | nil => simp [insertB, lookupB]
  | cons p rest ih =>
    obtain ⟨k0, b0⟩ := p
    by_cases hk : k0 = key
    · simp [insertB, hk, lookupB]
    · simp [insertB, hk, lookupB, ih]

/-- The bucket an `add` call leaves under its key: the rollover branch
taken iff the looked-up window time (or, for a fresh bucket, the id's
time) differs from `latest`. -/
theorem lookupB_add (buf : List (String × Bucket)) (id : BId) (latest : ℤ)
    (v : ℚ) :
    lookupB (add buf id latest v) (bufKey id) =
      some (let b0 := (lookupB buf (bufKey id)).getD { id := id, vals := [0] }
            if b0.id.time ≠ latest then
              { id := { b0.id with time := latest }, vals := [v] }
            else { b0 with vals := b0.vals ++ [v] }) := by
  unfold add
  rw [lookupB_insertB_self]
  cases h : lookupB buf (bufKey id) with
  | none =>
    by_cases ht : id.time ≠ latest <;> simp [h, ht]
  | some b =>
    by_cases ht : b.id.time ≠ latest <;> simp [h, ht]

/-- Within one window (stored time = truncated current time), `add` only
appends. -/
theorem lookupB_add_steady (buf : List (String × Bucket)) (id : BId)
    (latest : ℤ) (v : ℚ) (b : Bucket)
    (hb : lookupB buf (bufKey id) = some b) (ht : b.id.time = latest) :
    lookupB (add buf id latest v) (bufKey id) =
      some { b with vals := b.vals ++ [v] } := by
  rw [lookupB_add, hb]
  simp [ht]

theorem lookupB_addMany_steady (id : BId) (latest : ℤ) (vs : List ℚ) :
    ∀ (buf : List (String × Bucket)) (b : Bucket),
      lookupB buf (bufKey id) = some b → b.id.time = latest →
      lookupB (addMany buf id latest vs) (bufKey id) =
        some { b with vals := b.vals ++ vs } := by
  induction vs with
  | nil => intro buf b hb _; simpa [addMany] using hb
  | cons v vs ih =>
    intro buf b hb ht
    have h1 := lookupB_add_steady buf id latest v b hb ht
    have h2 := ih (add buf id latest v) { b with vals := b.vals ++ [v] } h1 ht
    simpa [addMany, List.foldl_cons] using h2

theorem foldl_max_mem (l : List ℚ) (v : ℚ) : l.foldl max v ∈ v :: l := by
  induction l generalizing v with
  | nil => simp
  | cons a l ih =>
    have h := ih (max v a)
    rcases List.mem_cons.mp h with h' | h'
    · rw [List.foldl_cons, h']
      rcases max_choice v a with hm | hm <;> simp [hm]
    · simp [List.foldl_cons, List.mem_cons.mpr (Or.inr (List.mem_cons.mpr (Or.inr h')))]

theorem le_foldl_max_seed (l : List ℚ) (v : ℚ) : v ≤ l.foldl max v := by
  induction l generalizing v with
  | nil => simp
  | cons a l ih =>
    calc v ≤ max v a := le_max_left v a
    _ ≤ l.foldl max (max v a) := ih (max v a)

theorem le_foldl_max (l : List ℚ) (v : ℚ) :
    ∀ x ∈ v :: l, x ≤ l.foldl max v := by
  induction l generalizing v with
  | nil => intro x hx; simp at hx; simp [hx]
  | cons a l ih =>
    intro x hx
    rcases List.mem_cons.mp hx with h | h
    · calc x = v := h
      _ ≤ max v a := le_max_left v a
      _ ≤ l.foldl max (max v a) := le_foldl_max_seed l (max v a)
    · rcases List.mem_cons.mp h with h' | h'
      · calc x = a := h'
        _ ≤ max v a := le_max_right v a
        _ ≤ l.foldl max (max v a) := le_foldl_max_seed l (max v a)
      · exact ih (max v a) x (List.mem_cons.mpr (Or.inr h'))

theorem foldl_min_mem (l : List ℚ) (v : ℚ) : l.foldl min v ∈ v :: l := by
  induction l generalizing v with
  | nil => simp
  | cons a l ih =>
    have h := ih (min v a)
    rcases List.mem_cons.mp h with h' | h'
    · rw [List.foldl_cons, h']
      rcases min_choice v a with hm | hm <;> simp [hm]
    · simp [List.foldl_cons, List.mem_cons.mpr (Or.inr (List.mem_cons.mpr (Or.inr h')))]

theorem foldl_min_seed_le (l : List ℚ) (v : ℚ) : l.foldl min v ≤ v := by
  induction l generalizing v with
  | nil => simp
  | cons a l ih =>
    calc l.foldl min (min v a) ≤ min v a := ih (min v a)
    _ ≤ v := min_le_left v a

theorem foldl_min_le (l : List ℚ) (v : ℚ) :
    ∀ x ∈ v :: l, l.foldl min v ≤ x := by
  induction l generalizing v with
  | nil => intro x hx; simp at hx; simp [hx]
  | cons a l ih =>
    intro x hx
    rcases List.mem_cons.mp hx with h | h
    · calc l.foldl min (min v a) ≤ min v a := foldl_min_seed_le l (min v a)
      _ ≤ v := min_le_left v a
      _ = x := h.symm
    · rcases List.mem_cons.mp h with h' | h'
      · calc l.foldl min (min v a) ≤ min v a := foldl_min_seed_le l (min v a)
        _ ≤ a := min_le_right v a
        _ = x := h'.symm
      · exact ih (min v a) x (List.mem_cons.mpr (Or.inr h'))

end Metchan

/-! ### Claims about the self-metrics channel -/

/-- **C1.** For every sequence of `add` calls on the Self-Metrics Channel
within one window (truncated current time equal to the bucket's stored
time), the bucket's value sequence contains exactly the values added in
that window, in order — so `Count` equals the number of calls, `Sum`
their arithmetic total, `Max`/`Min` the true extrema; and at the first
`add` after the truncated current time differs from the stored time, the
value sequence is reset to empty (old values discarded) before the new
value is appended.  Stated for a window opened by a rollover (or by
creation of the bucket at a nonzero truncated time, the id's stored time
differing from `latest`): after adding `vs` at a fixed `latest`, the
bucket holds exactly `vs`. -/
theorem c1_selfmetric_window_accumulation
    (buf : List (String × Metchan.Bucket)) (id : Metchan.BId) (latest : ℤ)
    (vs : List ℚ)
    (hroll : Metchan.needsRoll buf (Metchan.bufKey id) id.time latest = true)
    (hne : vs ≠ []) :
    ∃ b, Metchan.lookupB (Metchan.addMany buf id latest vs)
          (Metchan.bufKey id) = some b ∧
      b.vals = vs ∧ b.id.time = latest ∧
      b.count = vs.length ∧ b.sumv = vs.sum ∧
      b.maxv ∈ vs ∧ (∀ x ∈ vs, x ≤ b.maxv) ∧
      b.minv ∈ vs ∧ (∀ x ∈ vs, b.minv ≤ x) := by
  obtain ⟨v, rest, rfl⟩ : ∃ v rest, vs = v :: rest := by
    cases vs with
    | nil => exact absurd rfl hne
    | cons v rest => exact ⟨v, rest, rfl⟩
  -- the first add rolls the window over and leaves exactly `[v]`
  have hfirst : ∃ i : Metchan.BId,
      Metchan.lookupB (Metchan.add buf id latest v) (Metchan.bufKey id) =
        some ⟨i, [v]⟩ ∧ i.time = latest := by
    rw [Metchan.lookupB_add]
    unfold Metchan.needsRoll at hroll
    cases h : Metchan.lookupB buf (Metchan.bufKey id) with
    | none =>
      rw [h] at hroll
      have : id.time ≠ latest := by simpa using hroll
      exact ⟨{ id with time := latest }, by simp [h, this], rfl⟩
    | some b0 =>
      rw [h] at hroll
      have : b0.id.time ≠ latest := by simpa using hroll
      exact ⟨{ b0.id with time := latest }, by simp [h, this], rfl⟩
  obtain ⟨i, hlook, hti⟩ := hfirst
  have hmany := Metchan.lookupB_addMany_steady id latest rest
    (Metchan.add buf id latest v) ⟨i, [v]⟩ hlook hti
  refine ⟨⟨i, v :: rest⟩, ?_, rfl, hti, rfl, rfl, ?_, ?_, ?_, ?_⟩
  · have : Metchan.addMany buf id latest (v :: rest) =
        Metchan.addMany (Metchan.add buf id latest v) id latest rest := by
      simp [Metchan.addMany]
    rw [this, hmany]
    simp
  · exact Metchan.foldl_max_mem rest v
  · exact Metchan.le_foldl_max rest v
  · exact Metchan.foldl_min_mem rest v
  · exact Metchan.foldl_min_le rest v

/-- Witness for C1: three values added to a fresh bucket in the window
starting at truncated time 60. -/
theorem c1_selfmetric_window_accumulation_witness :
    (Metchan.needsRoll [] (Metchan.bufKey ⟨"app.m", "host", 0⟩)
        (Metchan.BId.mk "app.m" "host" 0).time 60 = true ∧
      ([2, 5, 3] : List ℚ) ≠ []) ∧
    (∃ b, Metchan.lookupB
          (Metchan.addMany [] ⟨"app.m", "host", 0⟩ 60 [2, 5, 3])
          (Metchan.bufKey ⟨"app.m", "host", 0⟩) = some b ∧
      b.vals = [2, 5, 3] ∧ b.id.time = 60 ∧
      b.count = ([2, 5, 3] : List ℚ).length ∧
      b.sumv = ([2, 5, 3] : List ℚ).sum ∧
      b.maxv ∈ ([2, 5, 3] : List ℚ) ∧
      (∀ x ∈ ([2, 5, 3] : List ℚ), x ≤ b.maxv) ∧
      b.minv ∈ ([2, 5, 3] : List ℚ) ∧
      (∀ x ∈ ([2, 5, 3] : List ℚ), b.minv ≤ x)) :=
  ⟨⟨by decide, by decide⟩,
    c1_selfmetric_window_accumulation [] ⟨"app.m", "host", 0⟩ 60 [2, 5, 3]
      (by decide) (by decide)⟩

/-- **C10.** `flush` leaves the buffer map entirely unchanged: it neither
removes keys nor modifies any bucket's stored time or value sequence;
consequently, since rollover happens only inside `add`, a bucket that
receives no `add` calls between two consecutive flushes is emitted a
second time with an identical `AggregatedMetric` (same window time,
count, sum, max, min) — stale buckets are re-exported, not skipped. -/
theorem c10_flush_preserves_buffer (buf : List (String × Metchan.Bucket)) :
    (Metchan.flush buf).2 = buf ∧
    (∀ k, Metchan.lookupB (Metchan.flush buf).2 k = Metchan.lookupB buf k) ∧
    (Metchan.flush buf).1 = buf.map (fun p => Metchan.toLMetric p.2) ∧
    (Metchan.flush (Metchan.flush buf).2).1 = (Metchan.flush buf).1 :=
  ⟨rfl, fun _ => rfl, rfl, rfl⟩

/-- **C9.** The poster's `post` operation serialises each metric as a
single-element batch (`{"gauges": [m]}` with exactly one element) and
returns a non-nil error iff the response status is outside the 2xx range
(`status/100 ≠ 2`), the error carrying the response body when it can be
read; on error the item is dropped (never requeued) and the poster loop
continues with the next item, processing every outbox item exactly
once. -/
theorem c9_post_single_batch_error_iff (m : Metchan.LMetric)
    (resp : Metchan.HttpResp) (items : List (Metchan.LMetric × Metchan.HttpResp)) :
    (Metchan.post m resp).1.gauges = [m] ∧
    ((Metchan.post m resp).2 = none ↔ resp.status / 100 = 2) ∧
    (resp.status / 100 ≠ 2 →
      (Metchan.post m resp).2 =
        some (Metchan.PostErr.httpErr resp.status resp.body)) ∧
    Metchan.outletRun items =
      items.map (fun p => (p.1, (Metchan.post p.1 p.2).2)) := by
  refine ⟨rfl, ?_, ?_, ?_⟩
  · unfold Metchan.post
    by_cases h : resp.status / 100 = 2 <;> simp [h]
  · intro h
    unfold Metchan.post
    simp [h]
  · induction items with
    | nil => rfl
    | cons p rest ih =>
      obtain ⟨m0, r0⟩ := p
      simp [Metchan.outletRun, ih]

/-- Witness for C9: a 404 with readable body `"oops"` yields the error
carrying status and body; a 200 yields no error. -/
theorem c9_post_single_batch_error_iff_witness :
    ((Metchan.post ⟨"n", 0, "s", 1, 1, 1, 1⟩ ⟨404, some "oops"⟩).1.gauges =
        [⟨"n", 0, "s", 1, 1, 1, 1⟩] ∧
      ((Metchan.post ⟨"n", 0, "s", 1, 1, 1, 1⟩ ⟨404, some "oops"⟩).2 = none ↔
        (404 : ℕ) / 100 = 2) ∧
      ((404 : ℕ) / 100 ≠ 2 →
        (Metchan.post ⟨"n", 0, "s", 1, 1, 1, 1⟩ ⟨404, some "oops"⟩).2 =
          some (Metchan.PostErr.httpErr 404 (some "oops"))) ∧
      Metchan.outletRun [(⟨"n", 0, "s", 1, 1, 1, 1⟩, ⟨404, some "oops"⟩)] =
        [(⟨"n", 0, "s", 1, 1, 1, 1⟩, ⟨404, some "oops"⟩)].map
          (fun p => (p.1, (Metchan.post p.1 p.2).2))) ∧
    (404 : ℕ) / 100 ≠ 2 :=
  ⟨c9_post_single_batch_error_iff ⟨"n", 0, "s", 1, 1, 1, 1⟩
      ⟨404, some "oops"⟩ [(⟨"n", 0, "s", 1, 1, 1, 1⟩, ⟨404, some "oops"⟩)],
    by decide⟩

/-! ### Claims about the auth resolver

`fernet.VerifyAndDecrypt` returns `nil` for any input shorter than a
minimal token (version byte, timestamp, IV, HMAC — far longer than the
payloads below), so instantiating `verify` with `Utils.verifyNone` on
these inputs reflects the library under every key set. -/

/-- **C4**, counterexample to the claim as stated.  The header
`"Basic anVzdGF1c2Vy"` passes steps 1–3 and decodes to `"justauser"`; the
claim predicts the result `("justauser", "", nil error)`.  The code
instead base64-decodes the first colon-field `"justauser"` itself, which
is not valid base64 (length 9), stores the decode failure in the named
return `err`, and returns the partially decoded bytes as the user — a
non-nil error, not `("justauser", "")`. -/
theorem c4_counterexample :
    Utils.ParseAuth Utils.verifyNone (some "Basic anVzdGF1c2Vy") =
      .ret (String.mk (Utils.bytesToChars [142, 235, 45, 106, 235, 30])) ""
        (some .b64CorruptInput) ∧
    Utils.ParseAuth Utils.verifyNone (some "Basic anVzdGF1c2Vy") ≠
      .ret "justauser" "" none :=
  ⟨by decide, by decide⟩

/-- **C4**, amended.  For every request whose Authorization header is
present, splits into exactly two space-separated tokens and whose
credentials token is valid standard base64 (steps 1–3 pass), if neither
the sentinel branch nor the token scheme applies, step 6 base64-decodes
the *first colon-field of the decoded payload*: when that field is
non-empty and itself valid base64, `ParseAuth` returns the decode's first
colon-field as user and its second (or `""`) as secret, with a nil error.
In particular a payload `"anVzdGF1c2Vy"` — base64 of `"justauser"` —
yields `("justauser", "")` with no error. -/
theorem c4_amended_inline_creds
    (verify : String → Option String) (h sch cred p0 : String)
    (bs bs2 : List ℕ)
    (h1 : splitSpaceN2 h = [sch, cred])
    (h2 : Utils.base64DecodeGo cred.data = (bs, false))
    (h3 : (splitAll ':' (String.mk (Utils.bytesToChars bs))).headD "" = p0)
    (h4 : p0 ≠ "l2met")
    (h5 : verify (String.mk (Utils.bytesToChars bs)) = none)
    (h6 : 0 < p0.length)
    (h7 : Utils.base64DecodeGo p0.data = (bs2, false)) :
    Utils.ParseAuth verify (some h) =
      .ret ((splitAll ':' (String.mk (Utils.bytesToChars bs2))).headD "")
        ((splitAll ':' (String.mk (Utils.bytesToChars bs2))).getD 1 "")
        none := by
  have step1 : Utils.ParseAuth verify (some h) =
      Utils.parseAuthTail verify (String.mk (Utils.bytesToChars bs))
        (splitAll ':' (String.mk (Utils.bytesToChars bs))) := by
    simp only [Utils.ParseAuth, h1]
    rw [if_neg (by simp)]
    simp only [List.getD_cons_succ, List.getD_cons_zero, h2, h3]
    rw [if_neg h4]
  rw [step1]
  simp only [Utils.parseAuthTail, h5, h3]
  rw [if_pos h6]
  simp only [h7]
  cases hg : (splitAll ':' (String.mk (Utils.bytesToChars bs2))).get? 1 with
  | none =>
    rw [List.get?_eq_getElem?] at hg
    simp [List.getD, hg]
  | some p =>
    rw [List.get?_eq_getElem?] at hg
    simp [List.getD, hg]

/-- Witness for the amended C4: the spec's own odd-payload example in its
corrected form — header `"Basic YW5WemRHRjFjMlZ5"`, payload
`"anVzdGF1c2Vy"`, first field base64-decoding to `"justauser"`, result
`("justauser", "")` with nil error. -/
theorem c4_amended_inline_creds_witness :
    (splitSpaceN2 "Basic YW5WemRHRjFjMlZ5" = ["Basic", "YW5WemRHRjFjMlZ5"] ∧
      Utils.base64DecodeGo "YW5WemRHRjFjMlZ5".data =
        ([97, 110, 86, 122, 100, 71, 70, 49, 99, 50, 86, 121], false) ∧
      Utils.base64DecodeGo "anVzdGF1c2Vy".data =
        ([106, 117, 115, 116, 97, 117, 115, 101, 114], false)) ∧
    Utils.ParseAuth Utils.verifyNone (some "Basic YW5WemRHRjFjMlZ5") =
      .ret ((splitAll ':' (String.mk (Utils.bytesToChars
              [106, 117, 115, 116, 97, 117, 115, 101, 114]))).headD "")
        ((splitAll ':' (String.mk (Utils.bytesToChars
              [106, 117, 115, 116, 97, 117, 115, 101, 114]))).getD 1 "")
        none :=
  ⟨⟨by decide, by decide, by decide⟩,
    c4_amended_inline_creds Utils.verifyNone "Basic YW5WemRHRjFjMlZ5"
      "Basic" "YW5WemRHRjFjMlZ5" "anVzdGF1c2Vy"
      [97, 110, 86, 122, 100, 71, 70, 49, 99, 50, 86, 121]
      [106, 117, 115, 116, 97, 117, 115, 101, 114]
      (by decide) (by decide) (by decide) (by decide) rfl (by decide)
      (by decide)⟩

/-- **C5.**  The claim states the sentinel branch returns a pair only
when the first colon-field is `"l2met"` and a second field is present and
non-empty, and that a decoded payload exactly `"l2met"` (no colon) safely
continues to the later schemes.  The code evaluates `len(parts[1])` as
soon as `parts[0] == "l2met"`, so the payload `"l2met"` — header
`"Basic bDJtZXQ="` — hits an index-out-of-range panic instead of
continuing: the claim describes the intent, the code crashes.  The
positive half of the branch does hold: `"l2met:abc123"` returns
`("l2met", "abc123")`. -/
theorem c5_sentinel_no_second_field_panics :
    Utils.ParseAuth Utils.verifyNone (some "Basic bDJtZXQ=") =
      Utils.AuthResult.panic ∧
    Utils.ParseAuth Utils.verifyNone (some "Basic bDJtZXQ6YWJjMTIz") =
      .ret "l2met" "abc123" none :=
  ⟨by decide, by decide⟩

/-! ### Lemmas about the outlet's grouping -/

namespace Outlet

theorem addToGroup_sound (f : Sample → String) (k : String) (x : Sample)
    (acc : List (String × List Sample))
    (hacc : ∀ p ∈ acc, ∀ a ∈ p.2, f a = p.1) (hx : f x = k) :
    ∀ p ∈ addToGroup k x acc, ∀ a ∈ p.2, f a = p.1 := by
  induction acc with
  | nil =>
    intro p hp a ha
    simp [addToGroup] at hp
    subst hp
    simp at ha
    subst ha
    exact hx
  | cons q rest ih =>
    obtain ⟨k0, as⟩ := q
    intro p hp a ha
    rw [addToGroup] at hp
    by_cases hk : k0 = k
    · rw [if_pos hk] at hp
      rcases List.mem_cons.mp hp with hp | hp
      · subst hp
        rcases List.mem_append.mp ha with ha' | ha'
        · exact hacc (k0, as) (List.mem_cons_self _ _) a ha'
        · have hax : a = x := by simpa using ha'
          subst hax
          show f a = k0
          rw [hx, hk]
      · exact hacc p (List.mem_cons_of_mem _ hp) a ha
    · rw [if_neg hk] at hp
      rcases List.mem_cons.mp hp with hp | hp
      · subst hp
        exact hacc (k0, as) (List.mem_cons_self _ _) a ha
      · exact ih (fun p' hp' => hacc p' (List.mem_cons_of_mem _ hp')) p hp a ha

theorem groupByAux_sound (f : Sample → String) :
    ∀ (l : List Sample) (acc : List (String × List Sample)),
      (∀ p ∈ acc, ∀ a ∈ p.2, f a = p.1) →
      ∀ p ∈ groupByAux f acc l, ∀ a ∈ p.2, f a = p.1 := by
  intro l
  induction l with
  | nil => intro acc hacc; exact hacc
  | cons a l ih =>
    intro acc hacc
    exact ih (addToGroup (f a) a acc) (addToGroup_sound f (f a) a acc hacc rfl)

/-- Every sample filed into a group by `group_by` has that group's key. -/
theorem groupBy_sound (f : Sample → String) (l : List Sample) :
    ∀ p ∈ groupBy f l, ∀ a ∈ p.2, f a = p.1 :=
  groupByAux_sound f l [] (by simp)

theorem addToGroup_filter_out (k : String) (x : Sample)
    (acc : List (String × List Sample)) :
    (addToGroup k x acc).filter (fun p => p.1 != k) =
      acc.filter (fun p => p.1 != k) := by
  induction acc with
  | nil => simp [addToGroup]
  | cons q rest ih =>
    obtain ⟨k0, as⟩ := q
    by_cases hk : k0 = k
    · simp [addToGroup, hk]
    · simp [addToGroup, hk, List.filter_cons, ih]

theorem addToGroup_filter_keep (k k9 : String) (x : Sample)
    (acc : List (String × List Sample)) (hne : k9 ≠ k) :
    (addToGroup k9 x acc).filter (fun p => p.1 != k) =
      addToGroup k9 x (acc.filter (fun p => p.1 != k)) := by
  induction acc with
  | nil => simp [addToGroup, hne]
  | cons q rest ih =>
    obtain ⟨k0, as⟩ := q
    by_cases hk : k0 = k9
    · subst hk
      simp [addToGroup, hne]
    · by_cases hk0 : k0 = k
      · subst hk0
        simp [addToGroup, hk, ih]
      · simp [addToGroup, hk, hk0, List.filter_cons, ih]

theorem groupByAux_filter (f : Sample → String) (k : String) :
    ∀ (l : List Sample) (acc : List (String × List Sample)),
      (groupByAux f acc l).filter (fun p => p.1 != k) =
        groupByAux f (acc.filter (fun p => p.1 != k))
          (l.filter (fun a => f a != k)) := by
  intro l
  induction l with
  | nil => intro acc; rfl
  | cons a l ih =>
    intro acc
    by_cases h : f a = k
    · simp only [groupByAux, List.filter_cons, h, bne_self_eq_false,
        Bool.false_eq_true, if_false]
      rw [ih, addToGroup_filter_out k]
    · simp only [groupByAux, List.filter_cons]
      rw [if_pos (by simp [h])]
      rw [ih, addToGroup_filter_keep k (f a) a acc h]
      rfl

theorem flatten_filter_out (ag : List Sample → List MOut) (k : String) :
    ∀ gl : List (String × List Sample),
      (∀ p ∈ gl, p.1 = k → ag p.2 = []) →
      (gl.map (fun g => ag g.2)).flatten =
        ((gl.filter (fun p => p.1 != k)).map (fun g => ag g.2)).flatten := by
  intro gl
  induction gl with
  | nil => intro _; rfl
  | cons p gl ih =>
    intro hz
    by_cases h : p.1 = k
    · simp only [List.map_cons, List.flatten_cons, hz p (List.mem_cons_self _ _) h,
        List.nil_append, List.filter_cons, h, bne_self_eq_false,
        Bool.false_eq_true, if_false]
      exact ih (fun p' hp' => hz p' (List.mem_cons_of_mem _ hp'))
    · simp only [List.map_cons, List.flatten_cons, List.filter_cons]
      rw [if_pos (by simp [h])]
      simp only [List.map_cons, List.flatten_cons]
      rw [ih (fun p' hp' => hz p' (List.mem_cons_of_mem _ hp'))]

/-- A group whose representative carries an unrecognised kind contributes
nothing (`nil`, removed by `compact`). -/
theorem aggregateGroup_unknown (stats : List Sample → List (String × ℚ))
    (bucket : ℤ) (s : Sample) (r : List Sample)
    (h1 : s.type ≠ "counter") (h2 : s.type ≠ "last")
    (h3 : s.type ≠ "list") :
    aggregateGroup stats bucket (s :: r) = [] := by
  simp only [aggregateGroup]

theorem groupByAux_homog (f : Sample → String) (k : String) :
    ∀ (l : List Sample) (as : List Sample), (∀ a ∈ l, f a = k) →
      groupByAux f [(k, as)] l = [(k, as ++ l)] := by
  intro l
  induction l with
  | nil => intro as _; simp [groupByAux]
  | cons a l ih =>
    intro as hl
    have ha : f a = k := hl a (List.mem_cons_self _ _)
    show groupByAux f (addToGroup (f a) a [(k, as)]) l = _
    rw [ha]
    have hstep : addToGroup k a [(k, as)] = [(k, as ++ [a])] := by
      simp [addToGroup]
    rw [hstep, ih (as ++ [a]) (fun a' ha' => hl a' (List.mem_cons_of_mem _ ha'))]
    simp

theorem addToGroup_subset (S : List Sample) (k : String) (x : Sample)
    (acc : List (String × List Sample))
    (hacc : ∀ p ∈ acc, ∀ a ∈ p.2, a ∈ S) (hx : x ∈ S) :
    ∀ p ∈ addToGroup k x acc, ∀ a ∈ p.2, a ∈ S := by
  induction acc with
  | nil =>
    intro p hp a ha
    simp [addToGroup] at hp
    subst hp
    simp at ha
    subst ha
    exact hx
  | cons q rest ih =>
    obtain ⟨k0, as⟩ := q
    intro p hp a ha
    rw [addToGroup] at hp
    by_cases hk : k0 = k
    · rw [if_pos hk] at hp
      rcases List.mem_cons.mp hp with hp | hp
      · subst hp
        rcases List.mem_append.mp ha with ha' | ha'
        · exact hacc (k0, as) (List.mem_cons_self _ _) a ha'
        · have hax : a = x := by simpa using ha'
          subst hax
          exact hx
      · exact hacc p (List.mem_cons_of_mem _ hp) a ha
    · rw [if_neg hk] at hp
      rcases List.mem_cons.mp hp with hp | hp
      · subst hp
        exact hacc (k0, as) (List.mem_cons_self _ _) a ha
      · exact ih (fun p' hp' => hacc p' (List.mem_cons_of_mem _ hp')) p hp a ha

theorem groupByAux_subset (f : Sample → String) (S : List Sample) :
    ∀ (l : List Sample) (acc : List (String × List Sample)),
      (∀ p ∈ acc, ∀ a ∈ p.2, a ∈ S) → (∀ a ∈ l, a ∈ S) →
      ∀ p ∈ groupByAux f acc l, ∀ a ∈ p.2, a ∈ S := by
  intro l
  induction l with
  | nil => intro acc hacc _; exact hacc
  | cons a l ih =>
    intro acc hacc hl
    exact ih (addToGroup (f a) a acc)
      (addToGroup_subset S (f a) a acc hacc (hl a (List.mem_cons_self _ _)))
      (fun a' ha' => hl a' (List.mem_cons_of_mem _ ha'))

/-- Every sample appearing in some group of `group_by` comes from the
input list. -/
theorem groupBy_subset (f : Sample → String) (l : List Sample) :
    ∀ p ∈ groupBy f l, ∀ a ∈ p.2, a ∈ l :=
  groupByAux_subset f l l [] (by simp) (fun _ ha => ha)

/-- `group_by` over a key-homogeneous nonempty list yields the single
group of all its elements, in order. -/
theorem groupBy_homog (f : Sample → String) (s : Sample) (rest : List Sample)
    (hk : ∀ a ∈ s :: rest, f a = f s) :
    groupBy f (s :: rest) = [(f s, s :: rest)] := by
  have h0 : addToGroup (f s) s [] = [(f s, [s])] := by simp [addToGroup]
  show groupByAux f (addToGroup (f s) s []) rest = [(f s, s :: rest)]
  rw [h0, groupByAux_homog f (f s) rest [s]
    (fun a ha => hk a (List.mem_cons_of_mem _ ha))]
  rfl

end Outlet

namespace Outlet

theorem okTrueB_eq_true (r : Except String Bool) :
    okTrueB r = true ↔ r = .ok true := by
  cases r with
  | error e => simp [okTrueB]
  | ok b => cases b <;> simp [okTrueB]

/-- Folding the tenant loop over groups that all submit successfully
advances the submission counter by their number and touches neither the
error counter nor the error log. -/
theorem foldl_snapStep_all_ok (lk : String → Except String Client)
    (sb : Client → List MOut → Except String Unit)
    (stats : List Sample → List (String × ℚ)) (bucket : ℤ)
    (l : List (String × List Sample)) :
    ∀ acc : SnapLog,
      (∀ g ∈ l, groupOutcome lk sb stats bucket g = .ok true) →
      (l.foldl (snapStep lk sb stats bucket) acc).submitted =
          acc.submitted + l.length ∧
      (l.foldl (snapStep lk sb stats bucket) acc).postErrors =
          acc.postErrors ∧
      (l.foldl (snapStep lk sb stats bucket) acc).errLogs = acc.errLogs := by
  induction l with
  | nil => intro acc _; simp
  | cons g l ih =>
    intro acc hall
    have hg := hall g (List.mem_cons_self _ _)
    have hstep : snapStep lk sb stats bucket acc g =
        { acc with
            submitted := acc.submitted + 1
            metricsCounted :=
              acc.metricsCounted + (aggregate stats bucket g.2).length } := by
      simp [snapStep, hg]
    rw [List.foldl_cons, hstep]
    obtain ⟨h1, h2, h3⟩ := ih _ (fun g' hg' => hall g' (List.mem_cons_of_mem _ hg'))
    refine ⟨?_, h2, h3⟩
    rw [h1]
    simp
    omega

/-- A group whose body raises is rescued: the error self-metric is
counted, the consumer id logged, and nothing else changes. -/
theorem snapStep_error (lk : String → Except String Client)
    (sb : Client → List MOut → Except String Unit)
    (stats : List Sample → List (String × ℚ)) (bucket : ℤ)
    (acc : SnapLog) (g : String × List Sample) (e : String)
    (h : groupOutcome lk sb stats bucket g = .error e) :
    snapStep lk sb stats bucket acc g =
      { acc with
          postErrors := acc.postErrors + 1
          errLogs := acc.errLogs ++ [g.1] } := by
  simp [snapStep, h]

end Outlet

/-! ### Claims about the distributed outlet -/

/-- **C2.** Partition assignment in `snapshot` is a pure function of the
key: for a fixed partition count `P`, `snapshot` retains exactly those
scanned keys whose numeric prefix (the integer before the first `':'`)
taken modulo `P` equals the partition argument `pt`, and for every key
there is exactly one partition in `0..P-1` for which it is retained. -/
theorem c2_partition_assignment (keys : List String) (pt P : ℕ)
    (hP : 0 < P) (hok : ∀ k ∈ keys, (Outlet.keyNumId k).isSome) :
    Outlet.snapshotSelect keys pt P =
      some (keys.filter (fun k => (Outlet.keyNumId k).getD 0 % P == pt)) ∧
    (∀ k, k ∈ keys.filter (fun k => (Outlet.keyNumId k).getD 0 % P == pt) ↔
      k ∈ keys ∧ (Outlet.keyNumId k).getD 0 % P = pt) ∧
    (∀ k ∈ keys, ∃! q, q < P ∧
      ∃ sel, Outlet.snapshotSelect keys q P = some sel ∧ k ∈ sel) := by
  have hall : keys.all (fun k => (Outlet.keyNumId k).isSome) = true :=
    List.all_eq_true.mpr (fun k hk => hok k hk)
  have hsel : ∀ q, Outlet.snapshotSelect keys q P =
      some (keys.filter (fun k => (Outlet.keyNumId k).getD 0 % P == q)) := by
    intro q
    unfold Outlet.snapshotSelect
    rw [if_pos hall]
  have hmem : ∀ q k,
      (k ∈ keys.filter (fun k => (Outlet.keyNumId k).getD 0 % P == q) ↔
        k ∈ keys ∧ (Outlet.keyNumId k).getD 0 % P = q) := by
    intro q k
    simp [List.mem_filter]
  refine ⟨hsel pt, hmem pt, ?_⟩
  intro k hk
  refine ⟨(Outlet.keyNumId k).getD 0 % P,
    ⟨Nat.mod_lt _ hP, _, hsel _, (hmem _ k).mpr ⟨hk, rfl⟩⟩, ?_⟩
  intro q ⟨_, sel, hq, hmemq⟩
  rw [hsel q] at hq
  obtain rfl : sel = keys.filter (fun k => (Outlet.keyNumId k).getD 0 % P == q) :=
    (Option.some_inj.mp hq).symm
  exact ((hmem q k).mp hmemq).2.symm

/-- Witness for C2: keys with numeric prefixes 3 and 4 under `P = 2`,
partition 1 retaining exactly the first. -/
theorem c2_partition_assignment_witness :
    ((0 : ℕ) < 2 ∧
      (∀ k ∈ ["3:100:aa", "4:100:bb"], (Outlet.keyNumId k).isSome)) ∧
    (Outlet.snapshotSelect ["3:100:aa", "4:100:bb"] 1 2 =
      some (["3:100:aa", "4:100:bb"].filter
        (fun k => (Outlet.keyNumId k).getD 0 % 2 == 1)) ∧
    (∀ k, k ∈ ["3:100:aa", "4:100:bb"].filter
        (fun k => (Outlet.keyNumId k).getD 0 % 2 == 1) ↔
      k ∈ ["3:100:aa", "4:100:bb"] ∧ (Outlet.keyNumId k).getD 0 % 2 = 1) ∧
    (∀ k ∈ ["3:100:aa", "4:100:bb"], ∃! q, q < 2 ∧
      ∃ sel, Outlet.snapshotSelect ["3:100:aa", "4:100:bb"] q 2 = some sel ∧
        k ∈ sel)) :=
  ⟨⟨by decide, by decide⟩,
    c2_partition_assignment ["3:100:aa", "4:100:bb"] 1 2 (by decide)
      (by decide)⟩

/-- **C7.** For every non-empty group of raw samples whose declared kind
is `"counter"`, `aggregate` produces exactly one output, named
`<name>.count`, whose value is the arithmetic sum of all sample values in
the group.  The group is homogeneous in the fields the code reads off an
arbitrary representative (`mkey`, `type`, `name`, `source`, `label`), so
Ruby's random choice of representative is irrelevant. -/
theorem c7_counter_group_sums (stats : List Outlet.Sample → List (String × ℚ))
    (bucket : ℤ) (s : Outlet.Sample) (rest : List Outlet.Sample)
    (hkey : ∀ m ∈ s :: rest, m.mkey = s.mkey)
    (hty : ∀ m ∈ s :: rest, m.type = "counter") :
    Outlet.aggregate stats bucket (s :: rest) =
      [⟨s.name ++ ".count", s.source, s.label, bucket,
        ((s :: rest).map Outlet.Sample.value).sum⟩] := by
  have hg := Outlet.groupBy_homog Outlet.Sample.mkey s rest hkey
  have hts : s.type = "counter" := hty s (List.mem_cons_self _ _)
  simp only [Outlet.aggregate, hg, List.map_cons, List.map_nil,
    List.flatten_cons, List.flatten_nil, List.append_nil]
  simp only [Outlet.aggregateGroup, hts]
  rfl

/-- Witness for C7: a three-sample counter group; its single output is
`<name>.count` valued at the sum of the three values. -/
theorem c7_counter_group_sums_witness :
    ((∀ m ∈ [Outlet.Sample.mk "7" "c1" "hits" "web" "n" "counter" 1,
             Outlet.Sample.mk "7" "c1" "hits" "web" "n" "counter" 2,
             Outlet.Sample.mk "7" "c1" "hits" "web" "n" "counter" 3],
        m.mkey = "7") ∧
      (∀ m ∈ [Outlet.Sample.mk "7" "c1" "hits" "web" "n" "counter" 1,
             Outlet.Sample.mk "7" "c1" "hits" "web" "n" "counter" 2,
             Outlet.Sample.mk "7" "c1" "hits" "web" "n" "counter" 3],
        m.type = "counter")) ∧
    Outlet.aggregate Outlet.statsAggregate 0
      [Outlet.Sample.mk "7" "c1" "hits" "web" "n" "counter" 1,
       Outlet.Sample.mk "7" "c1" "hits" "web" "n" "counter" 2,
       Outlet.Sample.mk "7" "c1" "hits" "web" "n" "counter" 3] =
      [⟨"hits" ++ ".count", "web", "n", 0,
        (([Outlet.Sample.mk "7" "c1" "hits" "web" "n" "counter" 1,
           Outlet.Sample.mk "7" "c1" "hits" "web" "n" "counter" 2,
           Outlet.Sample.mk "7" "c1" "hits" "web" "n" "counter" 3]).map
          Outlet.Sample.value).sum⟩] :=
  ⟨⟨by decide, by decide⟩,
    c7_counter_group_sums Outlet.statsAggregate 0
      (Outlet.Sample.mk "7" "c1" "hits" "web" "n" "counter" 1)
      [Outlet.Sample.mk "7" "c1" "hits" "web" "n" "counter" 2,
       Outlet.Sample.mk "7" "c1" "hits" "web" "n" "counter" 3]
      (by decide) (by decide)⟩

/-- **C6**, counterexample to the claim as stated.  The kind strings the
code dispatches on are `"counter"`, `"last"` and `"list"`; a group whose
declared kind is the literal `"distribution"` hits the silent default
branch and produces *no* output, even though the statistics routine
produces statistics for the group. -/
theorem c6_counterexample :
    Outlet.aggregate Outlet.statsAggregate 0
      [Outlet.Sample.mk "1" "c1" "lat" "web" "ms" "distribution" 1] = [] ∧
    Outlet.statsAggregate
      [Outlet.Sample.mk "1" "c1" "lat" "web" "ms" "distribution" 1] ≠ [] :=
  ⟨by decide, by decide⟩

/-- **C6**, amended: the kind selecting the statistics path is the
literal `"list"` (the spec's `distribution` kind).  For every non-empty
group of raw samples declared `"list"`, `aggregate` produces one output
per summary statistic computed by the statistics routine over the whole
group, each named `<name>.<stat>`. -/
theorem c6_list_group_stats (stats : List Outlet.Sample → List (String × ℚ))
    (bucket : ℤ) (s : Outlet.Sample) (rest : List Outlet.Sample)
    (hkey : ∀ m ∈ s :: rest, m.mkey = s.mkey)
    (hty : ∀ m ∈ s :: rest, m.type = "list") :
    Outlet.aggregate stats bucket (s :: rest) =
      (stats (s :: rest)).map
        (fun p => ⟨s.name ++ "." ++ p.1, s.source, s.label, bucket, p.2⟩) := by
  have hg := Outlet.groupBy_homog Outlet.Sample.mkey s rest hkey
  have hts : s.type = "list" := hty s (List.mem_cons_self _ _)
  simp only [Outlet.aggregate, hg, List.map_cons, List.map_nil,
    List.flatten_cons, List.flatten_nil, List.append_nil]
  simp only [Outlet.aggregateGroup, hts]

/-- Witness for the amended C6: a two-sample `"list"` group under the
modelled statistics routine, one output per statistic. -/
theorem c6_list_group_stats_witness :
    ((∀ m ∈ [Outlet.Sample.mk "2" "c1" "lat" "web" "ms" "list" 1,
             Outlet.Sample.mk "2" "c1" "lat" "web" "ms" "list" 3],
        m.mkey = "2") ∧
      (∀ m ∈ [Outlet.Sample.mk "2" "c1" "lat" "web" "ms" "list" 1,
             Outlet.Sample.mk "2" "c1" "lat" "web" "ms" "list" 3],
        m.type = "list")) ∧
    Outlet.aggregate Outlet.statsAggregate 0
      [Outlet.Sample.mk "2" "c1" "lat" "web" "ms" "list" 1,
       Outlet.Sample.mk "2" "c1" "lat" "web" "ms" "list" 3] =
      (Outlet.statsAggregate
        [Outlet.Sample.mk "2" "c1" "lat" "web" "ms" "list" 1,
         Outlet.Sample.mk "2" "c1" "lat" "web" "ms" "list" 3]).map
        (fun p => ⟨"lat" ++ "." ++ p.1, "web", "ms", 0, p.2⟩) :=
  ⟨⟨by decide, by decide⟩,
    c6_list_group_stats Outlet.statsAggregate 0
      (Outlet.Sample.mk "2" "c1" "lat" "web" "ms" "list" 1)
      [Outlet.Sample.mk "2" "c1" "lat" "web" "ms" "list" 3]
      (by decide) (by decide)⟩

/-- **C8.** For every group of raw samples whose declared kind is none of
the recognised kinds, `aggregate` produces no output for that group (the
group is silently dropped), does not raise any error (the embedding is a
total function), and outputs for the other groups in the same call are
unaffected: `aggregate` over the whole input equals `aggregate` over the
input with the unknown-kind group's samples removed, and an input
consisting only of such samples yields no output at all. -/
theorem c8_unknown_kind_dropped (stats : List Outlet.Sample → List (String × ℚ))
    (bucket : ℤ) (ms : List Outlet.Sample) (k : String)
    (hun : ∀ m ∈ ms, m.mkey = k →
      m.type ≠ "counter" ∧ m.type ≠ "last" ∧ m.type ≠ "list") :
    Outlet.aggregate stats bucket ms =
      Outlet.aggregate stats bucket (ms.filter (fun m => m.mkey != k)) ∧
    ((∀ m ∈ ms, m.mkey = k) → Outlet.aggregate stats bucket ms = []) := by
  have hz : ∀ p ∈ Outlet.groupBy Outlet.Sample.mkey ms, p.1 = k →
      Outlet.aggregateGroup stats bucket p.2 = [] := by
    intro p hp hpk
    cases hv : p.2 with
    | nil => rfl
    | cons s r =>
      have hsmem : s ∈ p.2 := by rw [hv]; exact List.mem_cons_self _ _
      have hsk : s.mkey = k := by
        rw [Outlet.groupBy_sound Outlet.Sample.mkey ms p hp s hsmem, hpk]
      have hsms : s ∈ ms := Outlet.groupBy_subset Outlet.Sample.mkey ms p hp s hsmem
      obtain ⟨u1, u2, u3⟩ := hun s hsms hsk
      exact Outlet.aggregateGroup_unknown stats bucket s r u1 u2 u3
  have hmain : Outlet.aggregate stats bucket ms =
      Outlet.aggregate stats bucket (ms.filter (fun m => m.mkey != k)) := by
    unfold Outlet.aggregate
    rw [Outlet.flatten_filter_out (fun g => Outlet.aggregateGroup stats bucket g) k
      (Outlet.groupBy Outlet.Sample.mkey ms) hz]
    unfold Outlet.groupBy
    rw [Outlet.groupByAux_filter Outlet.Sample.mkey k ms []]
    rfl
  refine ⟨hmain, ?_⟩
  intro hall
  have hfe : ms.filter (fun m => m.mkey != k) = [] := by
    rw [List.filter_eq_nil_iff]
    intro m hm
    simp [hall m hm]
  rw [hmain, hfe]
  rfl

/-- Witness for C8: a counter group (`mkey` 1) next to a group of unknown
kind `"dist?"` (`mkey` 9); dropping the unknown group's samples leaves
the call's output unchanged. -/
theorem c8_unknown_kind_dropped_witness :
    (∀ m ∈ [Outlet.Sample.mk "1" "c1" "hits" "web" "n" "counter" 1,
            Outlet.Sample.mk "9" "c1" "odd" "web" "n" "dist?" 2],
      m.mkey = "9" →
        m.type ≠ "counter" ∧ m.type ≠ "last" ∧ m.type ≠ "list") ∧
    (Outlet.aggregate Outlet.statsAggregate 0
        [Outlet.Sample.mk "1" "c1" "hits" "web" "n" "counter" 1,
         Outlet.Sample.mk "9" "c1" "odd" "web" "n" "dist?" 2] =
      Outlet.aggregate Outlet.statsAggregate 0
        ([Outlet.Sample.mk "1" "c1" "hits" "web" "n" "counter" 1,
          Outlet.Sample.mk "9" "c1" "odd" "web" "n" "dist?" 2].filter
          (fun m => m.mkey != "9")) ∧
    ((∀ m ∈ [Outlet.Sample.mk "1" "c1" "hits" "web" "n" "counter" 1,
             Outlet.Sample.mk "9" "c1" "odd" "web" "n" "dist?" 2],
        m.mkey = "9") →
      Outlet.aggregate Outlet.statsAggregate 0
        [Outlet.Sample.mk "1" "c1" "hits" "web" "n" "counter" 1,
         Outlet.Sample.mk "9" "c1" "odd" "web" "n" "dist?" 2] = [])) :=
  ⟨by decide,
    c8_unknown_kind_dropped Outlet.statsAggregate 0
      [Outlet.Sample.mk "1" "c1" "hits" "web" "n" "counter" 1,
       Outlet.Sample.mk "9" "c1" "odd" "web" "n" "dist?" 2] "9" (by decide)⟩

/-- **C3.** During one snapshot over N tenant groups, a failure
(directory lookup, aggregation or submission error) while processing one
tenant group is counted in the `outlet.metric-post-error` self-metric and
logged with the tenant id, and all remaining tenant groups are still
processed: a snapshot with one failing tenant and all others submitting
successfully yields exactly N−1 successful submissions, one counted and
logged error, and never aborts — the fold runs to completion over every
group. -/
theorem c3_tenant_failure_isolated (lk : String → Except String Outlet.Client)
    (sb : Outlet.Client → List Outlet.MOut → Except String Unit)
    (stats : List Outlet.Sample → List (String × ℚ)) (bucket : ℤ)
    (gs1 gs2 : List (String × List Outlet.Sample))
    (g : String × List Outlet.Sample) (e : String)
    (hok : ∀ g' ∈ gs1 ++ gs2,
      Outlet.groupOutcome lk sb stats bucket g' = .ok true)
    (hbad : Outlet.groupOutcome lk sb stats bucket g = .error e) :
    (Outlet.snapshotGroups lk sb stats bucket (gs1 ++ g :: gs2)).submitted =
      (gs1 ++ g :: gs2).length - 1 ∧
    (Outlet.snapshotGroups lk sb stats bucket (gs1 ++ g :: gs2)).postErrors = 1 ∧
    (Outlet.snapshotGroups lk sb stats bucket (gs1 ++ g :: gs2)).errLogs =
      [g.1] := by
  have hok1 : ∀ g' ∈ gs1, Outlet.groupOutcome lk sb stats bucket g' = .ok true :=
    fun g' h => hok g' (List.mem_append_left _ h)
  have hok2 : ∀ g' ∈ gs2, Outlet.groupOutcome lk sb stats bucket g' = .ok true :=
    fun g' h => hok g' (List.mem_append_right _ h)
  unfold Outlet.snapshotGroups
  rw [List.foldl_append, List.foldl_cons]
  obtain ⟨a1, a2, a3⟩ :=
    Outlet.foldl_snapStep_all_ok lk sb stats bucket gs1 ⟨0, 0, 0, []⟩ hok1
  rw [Outlet.snapStep_error lk sb stats bucket _ g e hbad]
  obtain ⟨b1, b2, b3⟩ := Outlet.foldl_snapStep_all_ok lk sb stats bucket gs2
    { gs1.foldl (Outlet.snapStep lk sb stats bucket) ⟨0, 0, 0, []⟩ with
        postErrors :=
          (gs1.foldl (Outlet.snapStep lk sb stats bucket) ⟨0, 0, 0, []⟩).postErrors + 1
        errLogs :=
          (gs1.foldl (Outlet.snapStep lk sb stats bucket) ⟨0, 0, 0, []⟩).errLogs ++
            [g.1] } hok2
  rw [b1, b2, b3]
  simp [a1, a2, a3, List.length_append]

/-- Witness for C3: three tenant groups `a`, `bad`, `c`; the directory
lookup fails for `bad`, the others each submit a non-empty counter
batch: two successful submissions out of three groups, one counted error
logged against `bad`. -/
theorem c3_tenant_failure_isolated_witness :
    ((∀ g' ∈ [("a", [Outlet.Sample.mk "1" "a" "hits" "web" "n" "counter" 1])] ++
        [("c", [Outlet.Sample.mk "3" "c" "hits" "web" "n" "counter" 3])],
      Outlet.groupOutcome
        (fun cid => if cid = "bad" then Except.error "boom"
          else Except.ok (Outlet.Client.mk "e" "t"))
        (fun _ _ => Except.ok ())
        Outlet.statsAggregate 0 g' = .ok true) ∧
      Outlet.groupOutcome
        (fun cid => if cid = "bad" then Except.error "boom"
          else Except.ok (Outlet.Client.mk "e" "t"))
        (fun _ _ => Except.ok ())
        Outlet.statsAggregate 0
        ("bad", [Outlet.Sample.mk "2" "bad" "hits" "web" "n" "counter" 2]) =
        .error "boom") ∧
    ((Outlet.snapshotGroups
        (fun cid => if cid = "bad" then Except.error "boom"
          else Except.ok (Outlet.Client.mk "e" "t"))
        (fun _ _ => Except.ok ())
        Outlet.statsAggregate 0
        ([("a", [Outlet.Sample.mk "1" "a" "hits" "web" "n" "counter" 1])] ++
          ("bad", [Outlet.Sample.mk "2" "bad" "hits" "web" "n" "counter" 2]) ::
          [("c", [Outlet.Sample.mk "3" "c" "hits" "web" "n" "counter" 3])])).submitted =
      ([("a", [Outlet.Sample.mk "1" "a" "hits" "web" "n" "counter" 1])] ++
        ("bad", [Outlet.Sample.mk "2" "bad" "hits" "web" "n" "counter" 2]) ::
        [("c", [Outlet.Sample.mk "3" "c" "hits" "web" "n" "counter" 3])]).length - 1 ∧
    (Outlet.snapshotGroups
        (fun cid => if cid = "bad" then Except.error "boom"
          else Except.ok (Outlet.Client.mk "e" "t"))
        (fun _ _ => Except.ok ())
        Outlet.statsAggregate 0
        ([("a", [Outlet.Sample.mk "1" "a" "hits" "web" "n" "counter" 1])] ++
          ("bad", [Outlet.Sample.mk "2" "bad" "hits" "web" "n" "counter" 2]) ::
          [("c", [Outlet.Sample.mk "3" "c" "hits" "web" "n" "counter" 3])])).postErrors = 1 ∧
    (Outlet.snapshotGroups
        (fun cid => if cid = "bad" then Except.error "boom"
          else Except.ok (Outlet.Client.mk "e" "t"))
        (fun _ _ => Except.ok ())
        Outlet.statsAggregate 0
        ([("a", [Outlet.Sample.mk "1" "a" "hits" "web" "n" "counter" 1])] ++
          ("bad", [Outlet.Sample.mk "2" "bad" "hits" "web" "n" "counter" 2]) ::
          [("c", [Outlet.Sample.mk "3" "c" "hits" "web" "n" "counter" 3])])).errLogs =
      [("bad", [Outlet.Sample.mk "2" "bad" "hits" "web" "n" "counter" 2]).1]) :=
  ⟨⟨by
      intro g' hg'
      rcases List.mem_append.mp hg' with h | h
      · rw [List.mem_singleton] at h
        subst h
        rfl
      · rw [List.mem_singleton] at h
        subst h
        rfl,
    rfl⟩,
    c3_tenant_failure_isolated
      (fun cid => if cid = "bad" then Except.error "boom"
        else Except.ok (Outlet.Client.mk "e" "t"))
      (fun _ _ => Except.ok ())
      Outlet.statsAggregate 0
      [("a", [Outlet.Sample.mk "1" "a" "hits" "web" "n" "counter" 1])]
      [("c", [Outlet.Sample.mk "3" "c" "hits" "web" "n" "counter" 3])]
      ("bad", [Outlet.Sample.mk "2" "bad" "hits" "web" "n" "counter" 2]) "boom"
      (by
        intro g' hg'
        rcases List.mem_append.mp hg' with h | h
        · rw [List.mem_singleton] at h
          subst h
          rfl
        · rw [List.mem_singleton] at h
          subst h
          rfl)
      rfl⟩

end L2met
